import Mathlib

/-!
Verification development for the rocketmq-rs client library.

The development shallowly embeds the two source modules:

* `src/protocol.rs` — the wire-protocol codec (`Header`, `RemoteCommand`,
  `encode`, `from_buffer`, the global opaque counter), together with a
  byte-level model of the serde_json serialization of `Header`;
* `src/producer/mod.rs` — `ProducerOptions`, its chained setters, and
  `Producer` construction.

Modelling conventions:

* bytes are `Nat` values (the encoder only ever emits values < 256);
* a Rust `String` is modelled as the list of its unicode scalar values
  (`RStr`); serialization turns them into UTF-8 bytes;
* machine integers are `Int`/`Nat` with explicit `% 2^32` / `% 2^64`
  wrapping where the Rust code wraps (`as i32`, `as usize`, usize
  subtraction);
* code that panics (the `unwrap`s in `from_buffer`) is modelled by
  `Option`, `none` standing for a panic;
* `HashMap<String, String>` is modelled as an association list in the
  map's iteration order (serde_json serializes the entries in iteration
  order, and Rust's `HashMap` equality is order-insensitive, so list
  round-trips are faithful and strictly stronger than map equality).
-/

set_option maxRecDepth 8192

namespace Rmq

/-! ### Machine-integer helpers -/

/-- 2^31, the boundary between non-negative and negative `i32` values. -/
def I31 : Nat := 2147483648

/-- 2^32, the modulus of `i32`/`u32` wrapping casts. -/
def U32 : Nat := 4294967296

/-- 2^64, the modulus of `usize`/`isize` wrapping arithmetic
(the crate targets 64-bit platforms). -/
def U64 : Nat := 18446744073709551616

/-- The signed 32-bit value whose two's-complement bit pattern is
`n % 2^32`.  This models Rust's wrapping cast `as i32`. -/
def i32ofBits (n : Nat) : Int :=
  if n % U32 < I31 then ((n % U32 : Nat) : Int) else ((n % U32 : Nat) : Int) - (U32 : Int)

/-- Rust's cast `x as usize` for an `i32` (or any signed) value `z`:
sign-extension, i.e. the bit pattern of `z` modulo 2^64. -/
def usizeOfI32 (z : Int) : Nat := (z % (U64 : Int)).toNat

/-- Wrapping `usize` subtraction (release-build semantics of `a - b`;
in a debug build an underflow would panic instead, but every decode path
that underflows subsequently fails its `read_exact`, so the observable
`Option` result is the same in both builds). -/
def subWrapU (a b : Nat) : Nat := (((a : Int) - (b : Int)) % (U64 : Int)).toNat

/-- The four big-endian bytes of `n` (expects `n < 2^32`); models
`write_i32::<BigEndian>` applied to the value with bit pattern `n`. -/
def be4 (n : Nat) : List Nat :=
  [n / 16777216 % 256, n / 65536 % 256, n / 256 % 256, n % 256]

/-- `read_i32::<BigEndian>` from a byte stream: consumes four bytes and
yields the signed 32-bit value, or `none` (a panicking `unwrap` in the
source) when fewer than four bytes remain. -/
def readI32 : List Nat → Option (Int × List Nat)
  | b0 :: b1 :: b2 :: b3 :: rest =>
      some (i32ofBits (b0 * 16777216 + b1 * 65536 + b2 * 256 + b3), rest)
  | _ => none

/-- `read_exact` into a buffer of `n` bytes: takes exactly `n` bytes or
fails (`none`) when the stream is shorter. -/
def readExactN (n : Nat) (input : List Nat) : Option (List Nat × List Nat) :=
  if n ≤ input.length then some (input.take n, input.drop n) else none

/-! ### Strings and the serde_json model

`serde_json::to_vec(&header)` serializes the `Header` struct as a JSON
object whose keys appear in declaration order, with no interleaved
whitespace; strings escape `"`, `\` and control characters (the named
escapes `\b \t \n \f \r`, otherwise `\u00XX`) and emit all other
characters as raw UTF-8.  The parser below inverts exactly that
serialization (serde_json additionally accepts reordered fields and
interleaved whitespace, which the serializer never produces; the model
is faithful on every buffer the encoder can emit, and fails on byte
sequences that are not a serialization of a `Header`). -/

/-- A Rust `String`, as its list of unicode scalar values. -/
abbrev RStr := List Nat

/-- ASCII byte list of a Lean string literal (used for the fixed JSON
punctuation and key names emitted by serde_json). -/
def lit (s : String) : List Nat := s.data.map Char.toNat

/-- UTF-8 encoding of one unicode scalar value. -/
def utf8Char (c : Nat) : List Nat :=
  if c < 128 then [c]
  else if c < 2048 then [192 + c / 64, 128 + c % 64]
  else if c < 65536 then [224 + c / 4096, 128 + c / 64 % 64, 128 + c % 64]
  else [240 + c / 262144, 128 + c / 4096 % 64, 128 + c / 64 % 64, 128 + c % 64]

/-- Lower-case hex digit byte for `n < 16`. -/
def hexDigit (n : Nat) : Nat := if n < 10 then 48 + n else 87 + n

/-- serde_json's escaping of a single character inside a JSON string. -/
def escChar (c : Nat) : List Nat :=
  if c = 34 then [92, 34]
  else if c = 92 then [92, 92]
  else if c = 8 then [92, 98]
  else if c = 9 then [92, 116]
  else if c = 10 then [92, 110]
  else if c = 12 then [92, 102]
  else if c = 13 then [92, 114]
  else if c < 32 then [92, 117, 48, 48, hexDigit (c / 16), hexDigit (c % 16)]
  else utf8Char c

/-- serde_json's escaping of a whole string body (without the quotes). -/
def escStr : RStr → List Nat
  | [] => []
  | c :: cs => escChar c ++ escStr cs

/-- Decimal digit bytes of `n`, least significant first; `f` is
structural fuel (`f ≥ n` suffices since `n` has at most `n` digits). -/
def natDigsRevF : Nat → Nat → List Nat
  | 0, _ => []
  | f + 1, n => if n = 0 then [] else (48 + n % 10) :: natDigsRevF f (n / 10)

/-- Decimal digit bytes of `n`, most significant first. -/
def natDigits (n : Nat) : List Nat :=
  if n = 0 then [48] else (natDigsRevF n n).reverse

/-- serde_json's serialization of a signed integer. -/
def intAscii (z : Int) : List Nat :=
  if z < 0 then 45 :: natDigits (-z).toNat else natDigits z.toNat

/-- Value of a hex digit byte, `none` if it is not a hex digit. -/
def parseHexDigit (b : Nat) : Option Nat :=
  if 48 ≤ b ∧ b ≤ 57 then some (b - 48)
  else if 97 ≤ b ∧ b ≤ 102 then some (b - 87)
  else if 65 ≤ b ∧ b ≤ 70 then some (b - 55)
  else none

/-- Whether a byte is an ASCII decimal digit. -/
def isDigitB (b : Nat) : Bool := decide (48 ≤ b) && decide (b ≤ 57)

/-- Splits the longest leading run of decimal digit bytes. -/
def takeDigits : List Nat → List Nat × List Nat
  | [] => ([], [])
  | b :: rest =>
      if isDigitB b then
        let p := takeDigits rest
        (b :: p.1, p.2)
      else ([], b :: rest)

/-- Numeric value of a most-significant-first digit byte list. -/
def digitsVal : List Nat → Nat → Nat
  | [], acc => acc
  | d :: ds, acc => digitsVal ds (acc * 10 + (d - 48))

/-- Parses a non-empty run of decimal digits. -/
def parseNatNum (l : List Nat) : Option (Nat × List Nat) :=
  match takeDigits l with
  | ([], _) => none
  | (ds, r) => some (digitsVal ds 0, r)

/-- Parses a JSON integer and applies serde's destination-type range
check (`lo ≤ value ≤ hi`; serde_json rejects out-of-range numbers). -/
def parseJIntB (lo hi : Int) : List Nat → Option (Int × List Nat)
  | [] => none
  | b :: rest =>
      if b = 45 then
        match parseNatNum rest with
        | some (m, r) =>
            if lo ≤ -(m : Int) ∧ -(m : Int) ≤ hi then some (-(m : Int), r) else none
        | none => none
      else
        match parseNatNum (b :: rest) with
        | some (m, r) =>
            if lo ≤ (m : Int) ∧ (m : Int) ≤ hi then some ((m : Int), r) else none
        | none => none

/-- Parses the body of a JSON string up to and including the closing
quote, un-escaping and UTF-8-decoding; `acc` holds the scalar values
read so far, in reverse.  Structural fuel decreases once per character
(each character consumes at least one byte, so `length + 1` fuel always
suffices).  Surrogate-pair `\uXXXX` escapes are not modelled (serde_json
itself never emits `\u` escapes above `\u001f`). -/
def parseStrAux : Nat → List Nat → List Nat → Option (RStr × List Nat)
  | 0, _, _ => none
  | _ + 1, [], _ => none
  | f + 1, b :: rest, acc =>
    if b = 34 then some (acc.reverse, rest)
    else if b = 92 then
      match rest with
      | [] => none
      | e :: r =>
        if e = 34 then parseStrAux f r (34 :: acc)
        else if e = 92 then parseStrAux f r (92 :: acc)
        else if e = 47 then parseStrAux f r (47 :: acc)
        else if e = 98 then parseStrAux f r (8 :: acc)
        else if e = 102 then parseStrAux f r (12 :: acc)
        else if e = 110 then parseStrAux f r (10 :: acc)
        else if e = 114 then parseStrAux f r (13 :: acc)
        else if e = 116 then parseStrAux f r (9 :: acc)
        else if e = 117 then
          match r with
          | h1 :: h2 :: h3 :: h4 :: r2 =>
            match parseHexDigit h1, parseHexDigit h2, parseHexDigit h3, parseHexDigit h4 with
            | some d1, some d2, some d3, some d4 =>
                let c := ((d1 * 16 + d2) * 16 + d3) * 16 + d4
                if 55296 ≤ c ∧ c < 57344 then none
                else parseStrAux f r2 (c :: acc)
            | _, _, _, _ => none
          | _ => none
        else none
    else if b < 32 then none
    else if b < 128 then parseStrAux f rest (b :: acc)
    else if b < 192 then none
    else if b < 224 then
      match rest with
      | [] => none
      | b1 :: r =>
        if 128 ≤ b1 ∧ b1 < 192 then
          let c := (b - 192) * 64 + (b1 - 128)
          if 128 ≤ c then parseStrAux f r (c :: acc) else none
        else none
    else if b < 240 then
      match rest with
      | b1 :: b2 :: r =>
        if (128 ≤ b1 ∧ b1 < 192) ∧ (128 ≤ b2 ∧ b2 < 192) then
          let c := (b - 224) * 4096 + (b1 - 128) * 64 + (b2 - 128)
          if 2048 ≤ c ∧ ¬(55296 ≤ c ∧ c < 57344) then parseStrAux f r (c :: acc) else none
        else none
      | _ => none
    else if b < 248 then
      match rest with
      | b1 :: b2 :: b3 :: r =>
        if (128 ≤ b1 ∧ b1 < 192) ∧ (128 ≤ b2 ∧ b2 < 192) ∧ (128 ≤ b3 ∧ b3 < 192) then
          let c := (b - 240) * 262144 + (b1 - 128) * 4096 + (b2 - 128) * 64 + (b3 - 128)
          if 65536 ≤ c ∧ c < 1114112 then parseStrAux f r (c :: acc) else none
        else none
      | _ => none
    else none

/-- Consumes a fixed byte sequence from the front of the input. -/
def expectBytes : List Nat → List Nat → Option (List Nat)
  | [], input => some input
  | _ :: _, [] => none
  | p :: ps, b :: bs => if b = p then expectBytes ps bs else none

/-! ### The Header data model (src/protocol.rs lines 13-22) -/

/-- `Header` (src/protocol.rs).  `opaqueId` is the field serialized under
the JSON key `"opaque"` (an `i32` in the source); `code`, `version` and
`flag` are `isize`. -/
structure Header where
  code : Int
  language : RStr
  version : Int
  opaqueId : Int
  flag : Int
  remark : RStr
  ext_fields : List (RStr × RStr)
deriving DecidableEq

/-- `RemoteCommand` (src/protocol.rs lines 24-28). -/
structure RemoteCommand where
  header : Header
  body : List Nat
deriving DecidableEq

/-- One serialized `"key":"value"` entry of the `ext_fields` object. -/
def serPair (p : RStr × RStr) : List Nat :=
  (34 :: (escStr p.1 ++ [34])) ++ 58 :: (34 :: (escStr p.2 ++ [34]))

/-- Comma-separated serialization of the `ext_fields` entries. -/
def serPairs : List (RStr × RStr) → List Nat
  | [] => []
  | [p] => serPair p
  | p :: ps => serPair p ++ 44 :: serPairs ps

/-- `serde_json::to_vec(&header)` (used at src/protocol.rs line 48):
the JSON object with the struct's fields in declaration order. -/
def serHeader (h : Header) : List Nat :=
  lit "\x7b\"code\":" ++ intAscii h.code
  ++ lit ",\"language\":\"" ++ escStr h.language
  ++ lit "\",\"version\":" ++ intAscii h.version
  ++ lit ",\"opaque\":" ++ intAscii h.opaqueId
  ++ lit ",\"flag\":" ++ intAscii h.flag
  ++ lit ",\"remark\":\"" ++ escStr h.remark
  ++ lit "\",\"ext_fields\":\x7b" ++ serPairs h.ext_fields ++ lit "\x7d\x7d"

/-- Parses the entries of the `ext_fields` object (opening brace already
consumed), including the closing brace. -/
def parsePairsAux : Nat → List Nat → List (RStr × RStr) → Option (List (RStr × RStr) × List Nat)
  | 0, _, _ => none
  | f + 1, input, acc =>
    match input with
    | 34 :: r =>
      match parseStrAux (f + 1) r [] with
      | some (k, r1) =>
        match r1 with
        | 58 :: 34 :: r2 =>
          match parseStrAux (f + 1) r2 [] with
          | some (v, r3) =>
            match r3 with
            | 44 :: r4 => parsePairsAux f r4 ((k, v) :: acc)
            | 125 :: r4 => some (((k, v) :: acc).reverse, r4)
            | _ => none
          | none => none
        | _ => none
      | none => none
    | _ => none

/-- Parses a (possibly empty) `ext_fields` object body after its opening
brace. -/
def parseExt (f : Nat) (input : List Nat) : Option (List (RStr × RStr) × List Nat) :=
  match input with
  | 125 :: r => some ([], r)
  | _ => parsePairsAux f input []

/-- Minimum of `i64` (the range serde enforces for `isize` fields). -/
def I64MIN : Int := -9223372036854775808

/-- Maximum of `i64`. -/
def I64MAX : Int := 9223372036854775807

/-- Minimum of `i32` (range of the `opaque` field). -/
def I32MIN : Int := -2147483648

/-- Maximum of `i32`. -/
def I32MAX : Int := 2147483647

/-- `serde_json::from_slice::<Header>` (used at src/protocol.rs line 66)
on the byte shape the serializer produces: the seven fields in
declaration order, full input consumed, `none` on anything else
(a deserialization error, hence a panicking `unwrap` in the source). -/
def parseHeaderBytes (input : List Nat) : Option Header :=
  let f := input.length + 1
  match expectBytes (lit "\x7b\"code\":") input with
  | none => none
  | some r1 =>
  match parseJIntB I64MIN I64MAX r1 with
  | none => none
  | some (code, r2) =>
  match expectBytes (lit ",\"language\":\"") r2 with
  | none => none
  | some r3 =>
  match parseStrAux f r3 [] with
  | none => none
  | some (language, r4) =>
  match expectBytes (lit ",\"version\":") r4 with
  | none => none
  | some r5 =>
  match parseJIntB I64MIN I64MAX r5 with
  | none => none
  | some (version, r6) =>
  match expectBytes (lit ",\"opaque\":") r6 with
  | none => none
  | some r7 =>
  match parseJIntB I32MIN I32MAX r7 with
  | none => none
  | some (opaqueVal, r8) =>
  match expectBytes (lit ",\"flag\":") r8 with
  | none => none
  | some r9 =>
  match parseJIntB I64MIN I64MAX r9 with
  | none => none
  | some (flag, r10) =>
  match expectBytes (lit ",\"remark\":\"") r10 with
  | none => none
  | some r11 =>
  match parseStrAux f r11 [] with
  | none => none
  | some (remark, r12) =>
  match expectBytes (lit ",\"ext_fields\":\x7b") r12 with
  | none => none
  | some r13 =>
  match parseExt f r13 with
  | none => none
  | some (ext, r14) =>
  match r14 with
  | [125] => some ⟨code, language, version, opaqueVal, flag, remark, ext⟩
  | _ => none

/-! ### encode / from_buffer (src/protocol.rs lines 46-81) -/

/-- `RemoteCommand::encode` (src/protocol.rs lines 46-58):
`[be32 (4 + header_len + body_len)][be32 header_len][header bytes][body]`,
each length written with the wrapping cast `as i32`. -/
def RemoteCommand.encode (c : RemoteCommand) : List Nat :=
  let header_bytes := serHeader c.header
  let header_len := header_bytes.length
  let length := 4 + header_len + c.body.length
  be4 (length % U32) ++ be4 (header_len % U32) ++ header_bytes
    ++ (if c.body.isEmpty then [] else c.body)

/-- `RemoteCommand::from_buffer` (src/protocol.rs lines 60-81).  Every
`unwrap` in the source is a `none` here: a panic, not an error value —
the function's return type in the source is `Self`, not a `Result`. -/
def from_buffer (input : List Nat) : Option RemoteCommand :=
  match readI32 input with
  | none => none
  | some (length, r1) =>
  match readI32 r1 with
  | none => none
  | some (header_len, r2) =>
  match readExactN (usizeOfI32 header_len) r2 with
  | none => none
  | some (header_buf, r3) =>
  match parseHeaderBytes header_buf with
  | none => none
  | some header =>
  let body_len := subWrapU (subWrapU (usizeOfI32 length) 4) (usizeOfI32 header_len)
  if 0 < body_len then
    match readExactN body_len r3 with
    | none => none
    | some (body_buf, _) => some ⟨header, body_buf⟩
  else some ⟨header, []⟩

/-! ### RemoteCommand::new and the opaque counter (src/protocol.rs 11, 31-44) -/

/-- Initial value of the `GLOBAL_OPAQUE` counter (src/protocol.rs line 11:
`AtomicIsize::new(0)`). -/
def initialCounter : Nat := 0

/-- `RemoteCommand::new` (src/protocol.rs lines 31-44), with the hidden
`GLOBAL_OPAQUE` state made explicit: `ctr` is the counter's current bit
pattern (an `isize`, as a natural number < 2^64); `fetch_add(1)` returns
the previous value — cast `as i32` for the opaque — and stores the
wrapped successor. -/
def RemoteCommand.new (code flag : Int) (remark : RStr) (fields : List (RStr × RStr))
    (body : List Nat) (ctr : Nat) : RemoteCommand × Nat :=
  (⟨⟨code, lit "OTHER", 431, i32ofBits ctr, flag, remark, fields⟩, body⟩, (ctr + 1) % U64)

/-- Argument bundle for one `RemoteCommand::new` call. -/
structure NewArgs where
  code : Int
  flag : Int
  remark : RStr
  fields : List (RStr × RStr)
  body : List Nat

/-- Constructs `n` commands sequentially (the `k`-th from `args (i + k)`),
threading the `GLOBAL_OPAQUE` counter; returns them in construction
order. -/
def buildFrom (args : Nat → NewArgs) (i : Nat) (ctr : Nat) : Nat → List RemoteCommand
  | 0 => []
  | n + 1 =>
      let r := RemoteCommand.new (args i).code (args i).flag (args i).remark
        (args i).fields (args i).body ctr
      r.1 :: buildFrom args (i + 1) r.2 n

/-! ### Well-formedness of a Header value

These predicates record exactly the invariants the Rust types give for
free: every string is made of unicode scalar values (`char`), `code`,
`version` and `flag` fit `isize`/`i64`, and the serialized-under-key
`"opaque"` field fits `i32`. -/

/-- All characters are unicode scalar values (what a Rust `String` can
hold: below the surrogate range or between it and 0x110000). -/
def WFStrB (s : RStr) : Bool :=
  s.all (fun c => decide (c < 55296) || (decide (57344 ≤ c) && decide (c < 1114112)))

/-- The type-level invariants of a Rust `Header` value. -/
def WFHeaderB (h : Header) : Bool :=
  decide (I64MIN ≤ h.code) && decide (h.code ≤ I64MAX)
  && decide (I64MIN ≤ h.version) && decide (h.version ≤ I64MAX)
  && decide (I32MIN ≤ h.opaqueId) && decide (h.opaqueId ≤ I32MAX)
  && decide (I64MIN ≤ h.flag) && decide (h.flag ≤ I64MAX)
  && WFStrB h.language && WFStrB h.remark
  && h.ext_fields.all (fun p => WFStrB p.1 && WFStrB p.2)

/-! ### Producer module (src/producer/mod.rs)

The producer module's collaborators — the resolver implementations, the
queue selector and `NameServer` — live in crate modules that are not
under `src/` (`crate::resolver`, `crate::namesrv`,
`src/producer/selector`); they are modelled from the spec below, each
marked as such.  Everything on `ProducerOptions` and `Producer` itself
is translated from `src/producer/mod.rs`. -/

/-- `std::time::Duration` (seconds and nanoseconds). -/
structure Duration where
  secs : Nat
  nanos : Nat
deriving DecidableEq

/-- `Duration::from_secs`. -/
def Duration.from_secs (s : Nat) : Duration := ⟨s, 0⟩

/-- Modelled from the spec: the resolver error taxonomy —
`ResolveError::Unreachable` on network failure, `::Malformed` on an
unparsable response (spec §4.2, §7). -/
inductive ResolveError
  | unreachable
  | malformed
deriving DecidableEq

/-- Outcome of one `resolve()` call: an address list or a `ResolveError`. -/
inductive ResolveResult
  | ok (addrs : List String)
  | err (e : ResolveError)
deriving DecidableEq

/-- Modelled from the spec: the `NsResolver` implementations of
`crate::resolver` (not under src/) as tagged data —
`HttpResolver::new(domain)`, `HttpResolver::with_domain(domain, url)`,
`PassthroughResolver::new(addrs, fallback)`, plus an arbitrary
conforming resolver (`set_resolver` accepts any `NsResolver`), carrying
the outcome its `resolve()` would produce. -/
inductive Resolver
  | http (domain : String)
  | httpWithDomain (domain : String) (url : String)
  | passthroughR (addrs : List String) (fallback : Resolver)
  | custom (descr : String) (result : ResolveResult)
deriving DecidableEq

/-- Modelled from the spec: `resolve()` (spec §4.2).  The HTTP variants
perform network I/O, abstracted by the oracle `net` mapping the queried
discovery target to its outcome; the passthrough variant returns its
fixed list when non-empty and otherwise delegates entirely to its
fallback. -/
def Resolver.resolve (net : String → ResolveResult) : Resolver → ResolveResult
  | .http domain => net domain
  | .httpWithDomain _ url => net url
  | .passthroughR addrs fallback => if addrs.isEmpty then fallback.resolve net else .ok addrs
  | .custom _ result => result

/-- Modelled from the spec: the queue-selector strategies (spec §4.3;
`src/producer/selector` is not under src/).  `RoundRobinQueueSelector::new()`
starts with an empty per-topic counter table; the interface is open to
other strategies. -/
inductive QSelector
  | roundRobin (counters : List (String × Nat))
  | customSel (descr : String)
deriving DecidableEq

/-- `ProducerOptions` (src/producer/mod.rs lines 34-40). -/
structure ProducerOptions where
  selector : QSelector
  send_msg_timeout : Duration
  default_topic_queue_nums : Nat
  create_topic_key : String
  resolver : Resolver
deriving DecidableEq

/-- `ProducerOptions::default` (src/producer/mod.rs lines 53-63). -/
def ProducerOptions.default : ProducerOptions :=
  ⟨.roundRobin [], Duration.from_secs 3, 4, "TBW102", .http "DEFAULT"⟩

/-- `ProducerOptions::new` (src/producer/mod.rs lines 66-68). -/
def ProducerOptions.new : ProducerOptions := ProducerOptions.default

/-- `set_send_msg_timeout` (src/producer/mod.rs lines 70-73). -/
def ProducerOptions.set_send_msg_timeout (o : ProducerOptions) (timeout : Duration) :
    ProducerOptions :=
  { o with send_msg_timeout := timeout }

/-- `set_default_topic_queue_nums` (src/producer/mod.rs lines 75-78);
`queue_nums` is a `usize`.  The source stores the value unconditionally. -/
def ProducerOptions.set_default_topic_queue_nums (o : ProducerOptions) (queue_nums : Nat) :
    ProducerOptions :=
  { o with default_topic_queue_nums := queue_nums }

/-- `set_create_topic_key` (src/producer/mod.rs lines 80-83). -/
def ProducerOptions.set_create_topic_key (o : ProducerOptions) (key : String) :
    ProducerOptions :=
  { o with create_topic_key := key }

/-- `set_resolver` (src/producer/mod.rs lines 85-88). -/
def ProducerOptions.set_resolver (o : ProducerOptions) (resolver : Resolver) :
    ProducerOptions :=
  { o with resolver := resolver }

/-- `set_name_server` (src/producer/mod.rs lines 90-96): switches to a
passthrough resolver over `addrs` with an `HttpResolver::new("DEFAULT")`
fallback. -/
def ProducerOptions.set_name_server (o : ProducerOptions) (addrs : List String) :
    ProducerOptions :=
  { o with resolver := .passthroughR addrs (.http "DEFAULT") }

/-- `set_name_server_domain` (src/producer/mod.rs lines 98-104):
switches to `HttpResolver::with_domain("DEFAULT", url)`. -/
def ProducerOptions.set_name_server_domain (o : ProducerOptions) (url : String) :
    ProducerOptions :=
  { o with resolver := .httpWithDomain "DEFAULT" url }

/-- Modelled from the spec: `NameServer::new` (`crate::namesrv`, not
under src/) performs the initial topology resolve at construction time
and fails with the resolve error when it fails (spec §4.4: construction
immediately performs an initial topology resolve; fail-fast). -/
structure NameServer where
  resolver : Resolver
  addrs : List String
deriving DecidableEq

/-- Modelled from the spec: see `NameServer`. -/
def NameServer.new (net : String → ResolveResult) (r : Resolver) :
    Except ResolveError NameServer :=
  match r.resolve net with
  | .ok addrs => .ok ⟨r, addrs⟩
  | .err e => .error e

/-- Modelled from the spec: the client core holds the name server
(`Client::new(client_options, name_server)`; `crate::client` is not
under src/). -/
structure PClient where
  name_server : NameServer
deriving DecidableEq

/-- `Producer` (src/producer/mod.rs lines 108-112). -/
structure Producer where
  group : String
  options : ProducerOptions
  client : PClient
deriving DecidableEq

/-- `Producer::with_options` (src/producer/mod.rs lines 119-127): builds
the name server from a clone of the options' resolver, propagating its
error with `?`, and only then returns the producer value. -/
def Producer.with_options (net : String → ResolveResult) (group : String)
    (options : ProducerOptions) : Except ResolveError Producer :=
  match NameServer.new net options.resolver with
  | .error e => .error e
  | .ok name_server => .ok ⟨group, options, ⟨name_server⟩⟩

/-- `Producer::new` (src/producer/mod.rs lines 115-117). -/
def Producer.new (net : String → ResolveResult) (group : String) :
    Except ResolveError Producer :=
  Producer.with_options net group ProducerOptions.new

/-! ### Auxiliary measures used only in proofs -/

/-- Value of a least-significant-first decimal digit byte list. -/
def valLSD : List Nat → Nat
  | [] => 0
  | d :: ds => (d - 48) + 10 * valLSD ds

/-- Fuel needed by `parsePairsAux` to consume a given entry list. -/
def pairsFuel : List (RStr × RStr) → Nat
  | [] => 0
  | p :: ps => p.1.length + p.2.length + 1 + pairsFuel ps

/-! ### Concrete values used by witnesses and counterexamples -/

/-- The header of the spec §8 scenario: code 10, flag 0, remark
"remark", ext_fields holding the message-id and offset entries (opaque
0, the first command of a fresh process). -/
def specHeader : Header :=
  ⟨10, lit "OTHER", 431, 0, 0, lit "remark",
   [(lit "messageId", lit "123"), (lit "offset", lit "456")]⟩

/-- The spec §8 scenario command, body "Hello World". -/
def specCmd : RemoteCommand := ⟨specHeader, lit "Hello World"⟩

/-- A 2^31-byte body: the smallest round number at which the frame no
longer fits the signed 32-bit total-length field. -/
def bigBody : List Nat := List.replicate 2147483648 0

/-- A command whose encoded frame overflows the `i32` total-length
field. -/
def bigCmd : RemoteCommand := ⟨specHeader, bigBody⟩

/-- Constant argument bundles for a concrete construction sequence. -/
def w3args : Nat → NewArgs := fun _ => ⟨10, 0, lit "remark", [], lit "Hello World"⟩

/-- A network on which every discovery query fails. -/
def failNet : String → ResolveResult := fun _ => .err .unreachable

/-- A frame whose header is valid but whose declared total length
promises five body bytes while only two follow: decoding it reaches the
body `read_exact` (protocol.rs line 71), which fails. -/
def truncBuf : List Nat :=
  be4 (4 + (serHeader specHeader).length + 5) ++ be4 (serHeader specHeader).length
    ++ serHeader specHeader ++ [65, 66]

/-! ## Lemmas: machine-integer helpers -/

theorem i32ofBits_small (n : Nat) (h : n < I31) : i32ofBits n = (n : Int) := by
  have hu : n % U32 = n := Nat.mod_eq_of_lt (by unfold I31 U32 at *; omega)
  simp [i32ofBits, hu, h]

theorem i32ofBits_mod (n : Nat) : i32ofBits (n % U32) = i32ofBits n := by
  have h : n % U32 % U32 = n % U32 := Nat.mod_mod_of_dvd n (dvd_refl U32)
  simp [i32ofBits, h]

theorem readI32_be4 (n : Nat) (r : List Nat) :
    readI32 (be4 (n % U32) ++ r) = some (i32ofBits n, r) := by
  have h : n % U32 < U32 := Nat.mod_lt _ (by unfold U32; omega)
  have hbits : n % U32 / 16777216 % 256 * 16777216 + n % U32 / 65536 % 256 * 65536
      + n % U32 / 256 % 256 * 256 + n % U32 % 256 = n % U32 := by
    unfold U32
    omega
  simp only [be4, readI32, List.cons_append, List.nil_append, hbits, i32ofBits_mod]

theorem usizeOfI32_ofNat (n : Nat) (h : n < U64) : usizeOfI32 (n : Int) = n := by
  unfold usizeOfI32 U64 at *
  omega

theorem usizeOfI32_neg (z : Int) (h1 : -(U64 : Int) < z) (h2 : z < 0) :
    usizeOfI32 z = (z + (U64 : Int)).toNat := by
  unfold usizeOfI32 U64 at *
  omega

theorem subWrapU_of_le (a b : Nat) (hb : b ≤ a) (ha : a < U64) : subWrapU a b = a - b := by
  unfold subWrapU U64 at *
  omega

/-! ## Lemmas: decimal integers round-trip through serialization -/

theorem valLSD_natDigsRevF (f : Nat) : ∀ n, n ≤ f → valLSD (natDigsRevF f n) = n := by
  induction f with
  | zero =>
      intro n h
      have : n = 0 := by omega
      simp [this, natDigsRevF, valLSD]
  | succ f ih =>
      intro n h
      by_cases h0 : n = 0
      · simp [h0, natDigsRevF, valLSD]
      · rw [natDigsRevF, if_neg h0, valLSD, ih (n / 10) (by omega)]
        omega

theorem natDigsRevF_digits (f : Nat) : ∀ n, ∀ d ∈ natDigsRevF f n, isDigitB d = true := by
  induction f with
  | zero => intro n d hd; simp [natDigsRevF] at hd
  | succ f ih =>
      intro n d hd
      by_cases h0 : n = 0
      · simp [h0, natDigsRevF] at hd
      · rw [natDigsRevF, if_neg h0] at hd
        rcases List.mem_cons.mp hd with h | h
        · subst h; simp [isDigitB]; omega
        · exact ih _ _ h

theorem natDigits_digits (n : Nat) : ∀ d ∈ natDigits n, isDigitB d = true := by
  intro d hd
  unfold natDigits at hd
  by_cases h0 : n = 0
  · rw [if_pos h0] at hd
    simp at hd
    subst hd
    decide
  · rw [if_neg h0] at hd
    exact natDigsRevF_digits n n d (List.mem_reverse.mp hd)

theorem natDigits_ne_nil (n : Nat) : natDigits n ≠ [] := by
  unfold natDigits
  by_cases h0 : n = 0
  · simp [h0]
  · rw [if_neg h0]
    obtain ⟨m, rfl⟩ := Nat.exists_eq_succ_of_ne_zero h0
    simp [natDigsRevF]

theorem digitsVal_append (a b : List Nat) (acc : Nat) :
    digitsVal (a ++ b) acc = digitsVal b (digitsVal a acc) := by
  induction a generalizing acc with
  | nil => simp [digitsVal]
  | cons d ds ih => simp [digitsVal, ih]

theorem digitsVal_reverse (l : List Nat) (acc : Nat) :
    digitsVal l.reverse acc = acc * 10 ^ l.length + valLSD l := by
  induction l generalizing acc with
  | nil => simp [digitsVal, valLSD]
  | cons d ds ih =>
      rw [List.reverse_cons, digitsVal_append, ih, valLSD]
      simp only [digitsVal, List.length_cons, pow_succ]
      ring

theorem digitsVal_natDigits (n : Nat) : digitsVal (natDigits n) 0 = n := by
  unfold natDigits
  by_cases h0 : n = 0
  · simp [h0, digitsVal]
  · rw [if_neg h0, digitsVal_reverse, valLSD_natDigsRevF n n le_rfl]
    simp

theorem takeDigits_append (ds rest : List Nat) (hds : ∀ d ∈ ds, isDigitB d = true)
    (hr : ∀ b, rest.head? = some b → isDigitB b = false) :
    takeDigits (ds ++ rest) = (ds, rest) := by
  induction ds with
  | nil =>
      cases rest with
      | nil => simp [takeDigits]
      | cons b r =>
          have : isDigitB b = false := hr b rfl
          simp [takeDigits, this]
  | cons d ds ih =>
      have hd : isDigitB d = true := hds d (List.mem_cons_self d ds)
      rw [List.cons_append, takeDigits, if_pos hd,
        ih (fun x hx => hds x (List.mem_cons_of_mem d hx))]

theorem parseNatNum_natDigits (n : Nat) (rest : List Nat)
    (hr : ∀ b, rest.head? = some b → isDigitB b = false) :
    parseNatNum (natDigits n ++ rest) = some (n, rest) := by
  obtain ⟨d, ds, hd⟩ := List.exists_cons_of_ne_nil (natDigits_ne_nil n)
  have hval : digitsVal (d :: ds) 0 = n := hd ▸ digitsVal_natDigits n
  unfold parseNatNum
  rw [takeDigits_append _ _ (natDigits_digits n) hr, hd]
  simp [hval]

theorem parseJIntB_round (lo hi z : Int) (h1 : lo ≤ z) (h2 : z ≤ hi) (rest : List Nat)
    (hr : ∀ b, rest.head? = some b → isDigitB b = false) :
    parseJIntB lo hi (intAscii z ++ rest) = some (z, rest) := by
  by_cases hz : z < 0
  · have hm : ((-z).toNat : Int) = -z := Int.toNat_of_nonneg (by omega)
    rw [intAscii, if_pos hz, List.cons_append, parseJIntB, if_pos rfl,
      parseNatNum_natDigits _ _ hr]
    have hb : lo ≤ -((-z).toNat : Int) ∧ -((-z).toNat : Int) ≤ hi := by
      rw [hm]; constructor <;> omega
    dsimp only
    rw [if_pos hb]
    simp [hm]
  · rw [intAscii, if_neg hz]
    obtain ⟨d, ds, hd⟩ := List.exists_cons_of_ne_nil (natDigits_ne_nil z.toNat)
    have hdig : isDigitB d = true := natDigits_digits z.toNat d (by rw [hd]; exact List.mem_cons_self d ds)
    have hd45 : ¬(d = 45) := by
      intro h
      subst h
      simp [isDigitB] at hdig
    have hzz : (z.toNat : Int) = z := Int.toNat_of_nonneg (by omega)
    rw [hd, List.cons_append, parseJIntB, if_neg hd45, ← List.cons_append, ← hd,
      parseNatNum_natDigits _ _ hr]
    have hb : lo ≤ (z.toNat : Int) ∧ (z.toNat : Int) ≤ hi := by
      rw [hzz]; constructor <;> omega
    dsimp only
    rw [if_pos hb, hzz]

/-- The byte after a serialized integer in a header is always a comma. -/
theorem head_comma (l : List Nat) : ∀ b, ((44 : Nat) :: l).head? = some b → isDigitB b = false := by
  intro b hb
  simp only [List.head?_cons, Option.some.injEq] at hb
  subst hb
  decide

/-! ## Lemmas: JSON strings round-trip through escaping and UTF-8 -/

theorem parseHexDigit_hexDigit (d : Nat) (h : d < 16) :
    parseHexDigit (hexDigit d) = some d := by
  unfold hexDigit parseHexDigit
  by_cases h10 : d < 10
  · rw [if_pos h10, if_pos (by omega)]
    congr 1
    omega
  · rw [if_neg h10, if_neg (by omega), if_pos (by omega)]
    congr 1
    omega

/-- Consuming one serialized character: the parser undoes `escChar`,
spending one unit of fuel. -/
theorem escCharStep (c : Nat) (hc : c < 55296 ∨ (57344 ≤ c ∧ c < 1114112)) (f : Nat)
    (tail acc : List Nat) :
    parseStrAux (f + 1) (escChar c ++ tail) acc = parseStrAux f tail (c :: acc) := by
  have hmax : c < 1114112 := by rcases hc with h | h <;> omega
  by_cases h34 : c = 34
  · subst h34; simp [escChar, parseStrAux]
  by_cases h92 : c = 92
  · subst h92; simp [escChar, parseStrAux]
  by_cases h8 : c = 8
  · subst h8; simp [escChar, parseStrAux]
  by_cases h9 : c = 9
  · subst h9; simp [escChar, parseStrAux]
  by_cases h10 : c = 10
  · subst h10; simp [escChar, parseStrAux]
  by_cases h12 : c = 12
  · subst h12; simp [escChar, parseStrAux]
  by_cases h13 : c = 13
  · subst h13; simp [escChar, parseStrAux]
  by_cases hctl : c < 32
  · have e1 : escChar c = [92, 117, 48, 48, hexDigit (c / 16), hexDigit (c % 16)] := by
      unfold escChar
      rw [if_neg h34, if_neg h92, if_neg h8, if_neg h9, if_neg h10, if_neg h12, if_neg h13,
        if_pos hctl]
    have p48 : parseHexDigit 48 = some 0 := by decide
    have pa : parseHexDigit (hexDigit (c / 16)) = some (c / 16) :=
      parseHexDigit_hexDigit _ (by omega)
    have pb : parseHexDigit (hexDigit (c % 16)) = some (c % 16) :=
      parseHexDigit_hexDigit _ (by omega)
    rw [e1]
    simp [parseStrAux, p48, pa, pb]
    have hval : c / 16 * 16 + c % 16 = c := by omega
    rw [hval, if_neg (by omega)]
  have eutf : escChar c = utf8Char c := by
    unfold escChar
    rw [if_neg h34, if_neg h92, if_neg h8, if_neg h9, if_neg h10, if_neg h12, if_neg h13,
      if_neg hctl]
  by_cases hascii : c < 128
  · have e1 : utf8Char c = [c] := by unfold utf8Char; rw [if_pos hascii]
    rw [eutf, e1]
    simp only [List.cons_append, List.nil_append, parseStrAux]
    rw [if_neg h34, if_neg h92, if_neg (by omega : ¬c < 32), if_pos hascii]
    simp
  by_cases h2b : c < 2048
  · have e1 : utf8Char c = [192 + c / 64, 128 + c % 64] := by
      unfold utf8Char
      rw [if_neg hascii, if_pos h2b]
    have hval : (192 + c / 64 - 192) * 64 + (128 + c % 64 - 128) = c := by omega
    rw [eutf, e1]
    simp only [List.cons_append, List.nil_append, parseStrAux]
    dsimp only [List.append]
    rw [if_neg (by omega : ¬(192 + c / 64 = 34)), if_neg (by omega : ¬(192 + c / 64 = 92)),
      if_neg (by omega : ¬(192 + c / 64 < 32)), if_neg (by omega : ¬(192 + c / 64 < 128)),
      if_neg (by omega : ¬(192 + c / 64 < 192)), if_pos (by omega : 192 + c / 64 < 224),
      if_pos (by omega : 128 ≤ 128 + c % 64 ∧ 128 + c % 64 < 192)]
    rw [hval]
    rw [if_pos (by omega : 128 ≤ c)]
  by_cases h3b : c < 65536
  · have e1 : utf8Char c = [224 + c / 4096, 128 + c / 64 % 64, 128 + c % 64] := by
      unfold utf8Char
      rw [if_neg hascii, if_neg h2b, if_pos h3b]
    have hval : (224 + c / 4096 - 224) * 4096 + (128 + c / 64 % 64 - 128) * 64
        + (128 + c % 64 - 128) = c := by omega
    rw [eutf, e1]
    simp only [List.cons_append, List.nil_append, parseStrAux]
    dsimp only [List.append]
    rw [if_neg (by omega : ¬(224 + c / 4096 = 34)), if_neg (by omega : ¬(224 + c / 4096 = 92)),
      if_neg (by omega : ¬(224 + c / 4096 < 32)), if_neg (by omega : ¬(224 + c / 4096 < 128)),
      if_neg (by omega : ¬(224 + c / 4096 < 192)), if_neg (by omega : ¬(224 + c / 4096 < 224)),
      if_pos (by omega : 224 + c / 4096 < 240),
      if_pos (by omega : (128 ≤ 128 + c / 64 % 64 ∧ 128 + c / 64 % 64 < 192)
        ∧ (128 ≤ 128 + c % 64 ∧ 128 + c % 64 < 192))]
    rw [hval]
    rw [if_pos (by omega : 2048 ≤ c ∧ ¬(55296 ≤ c ∧ c < 57344))]
  · have e1 : utf8Char c = [240 + c / 262144, 128 + c / 4096 % 64, 128 + c / 64 % 64,
        128 + c % 64] := by
      unfold utf8Char
      rw [if_neg hascii, if_neg h2b, if_neg h3b]
    have hval : (240 + c / 262144 - 240) * 262144 + (128 + c / 4096 % 64 - 128) * 4096
        + (128 + c / 64 % 64 - 128) * 64 + (128 + c % 64 - 128) = c := by omega
    rw [eutf, e1]
    simp only [List.cons_append, List.nil_append, parseStrAux]
    dsimp only [List.append]
    rw [if_neg (by omega : ¬(240 + c / 262144 = 34)),
      if_neg (by omega : ¬(240 + c / 262144 = 92)),
      if_neg (by omega : ¬(240 + c / 262144 < 32)),
      if_neg (by omega : ¬(240 + c / 262144 < 128)),
      if_neg (by omega : ¬(240 + c / 262144 < 192)),
      if_neg (by omega : ¬(240 + c / 262144 < 224)),
      if_neg (by omega : ¬(240 + c / 262144 < 240)),
      if_pos (by omega : 240 + c / 262144 < 248),
      if_pos (by omega : (128 ≤ 128 + c / 4096 % 64 ∧ 128 + c / 4096 % 64 < 192)
        ∧ (128 ≤ 128 + c / 64 % 64 ∧ 128 + c / 64 % 64 < 192)
        ∧ (128 ≤ 128 + c % 64 ∧ 128 + c % 64 < 192))]
    rw [hval]
    rw [if_pos (by omega : 65536 ≤ c ∧ c < 1114112)]

/-- A serialized string body followed by its closing quote parses back
to the original scalar values. -/
theorem parseStrAux_ser (s : RStr) (hs : WFStrB s = true) :
    ∀ f acc rest, s.length + 1 ≤ f →
      parseStrAux f (escStr s ++ 34 :: rest) acc = some (acc.reverse ++ s, rest) := by
  induction s with
  | nil =>
      intro f acc rest hf
      obtain ⟨f', rfl⟩ : ∃ f', f = f' + 1 := ⟨f - 1, by omega⟩
      simp [escStr, parseStrAux]
  | cons c cs ih =>
      intro f acc rest hf
      obtain ⟨f', rfl⟩ : ∃ f', f = f' + 1 := ⟨f - 1, by omega⟩
      have hs' := hs
      unfold WFStrB at hs'
      rw [List.all_cons, Bool.and_eq_true] at hs'
      obtain ⟨hc', hcs'⟩ := hs'
      simp only [Bool.or_eq_true, Bool.and_eq_true, decide_eq_true_eq] at hc'
      have hcs : WFStrB cs = true := hcs'
      rw [escStr, List.append_assoc, escCharStep c hc' f' _ acc,
        ih hcs f' (c :: acc) rest (by simp only [List.length_cons] at hf; omega)]
      simp

/-! ## Lemmas: fixed byte sequences and the ext_fields object -/

theorem expectBytes_append (p r : List Nat) : expectBytes p (p ++ r) = some r := by
  induction p with
  | nil => simp [expectBytes]
  | cons x ps ih => simp [expectBytes, ih]

theorem utf8Char_len_pos (c : Nat) : 1 ≤ (utf8Char c).length := by
  unfold utf8Char
  split_ifs <;> simp

theorem escChar_len_pos (c : Nat) : 1 ≤ (escChar c).length := by
  unfold escChar
  split_ifs <;> first | simp | exact utf8Char_len_pos c

theorem escStr_len_ge (s : RStr) : s.length ≤ (escStr s).length := by
  induction s with
  | nil => simp [escStr]
  | cons c cs ih =>
      rw [escStr, List.length_append]
      have := escChar_len_pos c
      simp only [List.length_cons]
      omega

theorem pairsFuel_le (ps : List (RStr × RStr)) : pairsFuel ps ≤ (serPairs ps).length := by
  induction ps with
  | nil => simp [pairsFuel, serPairs]
  | cons p ps ih =>
      cases ps with
      | nil =>
          have h1 := escStr_len_ge p.1
          have h2 := escStr_len_ge p.2
          simp [pairsFuel, serPairs, serPair, List.length_append]
          omega
      | cons q ps' =>
          have e : serPairs (p :: q :: ps') = serPair p ++ 44 :: serPairs (q :: ps') := rfl
          have h1 := escStr_len_ge p.1
          have h2 := escStr_len_ge p.2
          rw [pairsFuel, e, List.length_append]
          simp only [serPair, List.length_append, List.length_cons]
          omega

theorem parsePairsAux_ser (ps : List (RStr × RStr)) :
    ∀ (hwf : ps.all (fun p => WFStrB p.1 && WFStrB p.2) = true) (hne : ps ≠ [])
      (f : Nat) (acc : List (RStr × RStr)) (rest : List Nat),
      pairsFuel ps + 1 ≤ f →
      parsePairsAux f (serPairs ps ++ 125 :: rest) acc = some (acc.reverse ++ ps, rest) := by
  induction ps with
  | nil => intro _ hne; exact absurd rfl hne
  | cons p ps ih =>
      intro hwf _ f acc rest hf
      obtain ⟨k, v⟩ := p
      obtain ⟨f', rfl⟩ : ∃ f', f = f' + 1 := ⟨f - 1, by omega⟩
      rw [List.all_cons, Bool.and_eq_true] at hwf
      obtain ⟨hp, hps⟩ := hwf
      rw [Bool.and_eq_true] at hp
      obtain ⟨hk, hv⟩ := hp
      simp only [pairsFuel] at hf
      cases ps with
      | nil =>
          have e : serPairs [(k, v)] = serPair (k, v) := rfl
          rw [e]
          simp only [serPair, List.append_assoc, List.cons_append, List.nil_append]
          simp only [parsePairsAux]
          rw [parseStrAux_ser k hk (f' + 1) [] _ (by omega)]
          dsimp only
          rw [parseStrAux_ser v hv (f' + 1) [] _ (by omega)]
          simp
      | cons q ps' =>
          have e : serPairs ((k, v) :: q :: ps') = serPair (k, v) ++ 44 :: serPairs (q :: ps') := rfl
          rw [e]
          simp only [serPair, List.append_assoc, List.cons_append, List.nil_append]
          simp only [parsePairsAux]
          rw [parseStrAux_ser k hk (f' + 1) [] _ (by omega)]
          dsimp only
          rw [parseStrAux_ser v hv (f' + 1) [] _ (by omega)]
          dsimp only
          simp only [List.reverse_nil, List.nil_append]
          rw [ih hps (by simp) f' ((k, v) :: acc) rest (by omega)]
          simp

theorem parseExt_ser (ps : List (RStr × RStr))
    (hwf : ps.all (fun p => WFStrB p.1 && WFStrB p.2) = true)
    (f : Nat) (rest : List Nat) (hf : pairsFuel ps + 1 ≤ f) :
    parseExt f (serPairs ps ++ 125 :: rest) = some (ps, rest) := by
  cases ps with
  | nil => simp [serPairs, parseExt]
  | cons p ps' =>
      obtain ⟨k, v⟩ := p
      obtain ⟨t, ht⟩ : ∃ t, serPairs ((k, v) :: ps') = 34 :: t := by
        cases ps' <;> exact ⟨_, rfl⟩
      rw [ht, List.cons_append]
      rw [parseExt]
      · rw [← List.cons_append, ← ht]
        rw [parsePairsAux_ser ((k, v) :: ps') hwf (by simp) f [] rest hf]
        simp
      · intro r hr
        injection hr with h1 _
        exact absurd h1 (by decide)

/-! ## The header serialization round-trip -/

theorem expectBytes_cons (x : Nat) (p i : List Nat) :
    expectBytes (x :: p) (x :: i) = expectBytes p i := by
  simp [expectBytes]

theorem parseJIntB_round44 (lo hi z : Int) (h1 : lo ≤ z) (h2 : z ≤ hi) (l : List Nat) :
    parseJIntB lo hi (intAscii z ++ 44 :: l) = some (z, 44 :: l) :=
  parseJIntB_round lo hi z h1 h2 _ (head_comma l)

/-- Deserializing the serde_json serialization of any well-formed
`Header` yields the header back. -/
theorem parseHeaderBytes_ser (h : Header) (hwf : WFHeaderB h = true) :
    parseHeaderBytes (serHeader h) = some h := by
  obtain ⟨code, language, version, opq, flag, remark, ext⟩ := h
  unfold WFHeaderB at hwf
  simp only [Bool.and_eq_true, decide_eq_true_eq] at hwf
  obtain ⟨⟨⟨⟨⟨⟨⟨⟨⟨⟨hc1, hc2⟩, hv1⟩, hv2⟩, ho1⟩, ho2⟩, hf1⟩, hf2⟩, hlang⟩, hrem⟩, hext⟩ := hwf
  have eLang : lit ",\"language\":\"" = 44 :: lit "\"language\":\"" := rfl
  have eVerS : lit "\",\"version\":" = 34 :: (44 :: lit "\"version\":") := rfl
  have eVerP : lit ",\"version\":" = 44 :: lit "\"version\":" := rfl
  have eOpq : lit ",\"opaque\":" = 44 :: lit "\"opaque\":" := rfl
  have eFlag : lit ",\"flag\":" = 44 :: lit "\"flag\":" := rfl
  have eRem : lit ",\"remark\":\"" = 44 :: lit "\"remark\":\"" := rfl
  have eExtS : lit "\",\"ext_fields\":\x7b" = 34 :: (44 :: lit "\"ext_fields\":\x7b") := rfl
  have eExtP : lit ",\"ext_fields\":\x7b" = 44 :: lit "\"ext_fields\":\x7b" := rfl
  have eClose : lit "\x7d\x7d" = 125 :: [125] := rfl
  unfold parseHeaderBytes serHeader
  simp only [eLang, eVerS, eVerP, eOpq, eFlag, eRem, eExtS, eExtP, eClose,
    List.append_assoc, List.cons_append, List.nil_append]
  rw [expectBytes_append]
  dsimp only
  rw [parseJIntB_round44 _ _ _ hc1 hc2]
  dsimp only
  rw [expectBytes_cons, expectBytes_append]
  dsimp only
  rw [parseStrAux_ser language hlang _ [] _ (by
    simp only [List.length_append, List.length_cons]
    have := escStr_len_ge language
    omega)]
  dsimp only
  simp only [List.reverse_nil, List.nil_append]
  rw [expectBytes_cons, expectBytes_append]
  dsimp only
  rw [parseJIntB_round44 _ _ _ hv1 hv2]
  dsimp only
  rw [expectBytes_cons, expectBytes_append]
  dsimp only
  rw [parseJIntB_round44 _ _ _ ho1 ho2]
  dsimp only
  rw [expectBytes_cons, expectBytes_append]
  dsimp only
  rw [parseJIntB_round44 _ _ _ hf1 hf2]
  dsimp only
  rw [expectBytes_cons, expectBytes_append]
  dsimp only
  rw [parseStrAux_ser remark hrem _ [] _ (by
    simp only [List.length_append, List.length_cons]
    have := escStr_len_ge remark
    omega)]
  dsimp only
  simp only [List.reverse_nil, List.nil_append]
  rw [expectBytes_cons, expectBytes_append]
  dsimp only
  rw [parseExt_ser ext hext _ _ (by
    simp only [List.length_append, List.length_cons]
    have := pairsFuel_le ext
    omega)]

/-! ## The frame round-trip -/

/-- `encode` produces exactly the documented layout (the `is_empty`
branch of the source appends nothing for an empty body, which is the
same as appending the empty body). -/
theorem encode_eq (c : RemoteCommand) :
    RemoteCommand.encode c = be4 ((4 + (serHeader c.header).length + c.body.length) % U32)
      ++ be4 ((serHeader c.header).length % U32) ++ serHeader c.header ++ c.body := by
  obtain ⟨h, body⟩ := c
  cases body <;> simp [RemoteCommand.encode]

/-- Decoding an encoded frame — followed by arbitrary trailing bytes —
returns the original command, provided the frame fits the 32-bit length
fields. -/
theorem from_buffer_encode (c : RemoteCommand) (t : List Nat)
    (hwf : WFHeaderB c.header = true)
    (hsz : 4 + (serHeader c.header).length + c.body.length < I31) :
    from_buffer (RemoteCommand.encode c ++ t) = some c := by
  obtain ⟨h, body⟩ := c
  dsimp only at hwf hsz
  rw [encode_eq]
  dsimp only
  simp only [List.append_assoc]
  unfold from_buffer
  rw [readI32_be4]
  dsimp only
  rw [readI32_be4]
  dsimp only
  have hszn : 4 + (serHeader h).length + body.length < 2147483648 := hsz
  have htot : i32ofBits (4 + (serHeader h).length + body.length)
      = ((4 + (serHeader h).length + body.length : Nat) : Int) :=
    i32ofBits_small _ hsz
  have hhl : i32ofBits (serHeader h).length = (((serHeader h).length : Nat) : Int) :=
    i32ofBits_small _ (by unfold I31 at *; omega)
  rw [htot, hhl]
  have hu1 : usizeOfI32 ((4 + (serHeader h).length + body.length : Nat) : Int)
      = 4 + (serHeader h).length + body.length :=
    usizeOfI32_ofNat _ (by unfold U64; omega)
  have hu2 : usizeOfI32 (((serHeader h).length : Nat) : Int) = (serHeader h).length :=
    usizeOfI32_ofNat _ (by unfold U64; omega)
  rw [hu1, hu2]
  have hre : readExactN (serHeader h).length (serHeader h ++ (body ++ t))
      = some (serHeader h, body ++ t) := by
    unfold readExactN
    rw [if_pos (by simp [List.length_append]), List.take_left, List.drop_left]
  rw [hre]
  dsimp only
  rw [parseHeaderBytes_ser h hwf]
  dsimp only
  have hb1 : subWrapU (4 + (serHeader h).length + body.length) 4
      = (serHeader h).length + body.length :=
    (subWrapU_of_le _ _ (by omega) (by unfold U64; omega)).trans (by omega)
  have hb2 : subWrapU ((serHeader h).length + body.length) (serHeader h).length
      = body.length :=
    (subWrapU_of_le _ _ (by omega) (by unfold U64; omega)).trans (by omega)
  rw [hb1, hb2]
  by_cases hbe : 0 < body.length
  · rw [if_pos hbe]
    have hrb : readExactN body.length (body ++ t) = some (body, t) := by
      unfold readExactN
      rw [if_pos (by simp [List.length_append]), List.take_left, List.drop_left]
    rw [hrb]
  · rw [if_neg hbe]
    have hnil : body = [] := List.length_eq_zero.mp (by omega)
    rw [hnil]

/-! ## Lemmas: decode failure modes -/

theorem readI32_none (l : List Nat) (h : l.length < 4) : readI32 l = none := by
  rcases l with _ | ⟨a, _ | ⟨b, _ | ⟨c, _ | ⟨d, r⟩⟩⟩⟩ <;> first | rfl | (simp at h; omega)

theorem readI32_some_len (l : List Nat) (v : Int) (r : List Nat)
    (h : readI32 l = some (v, r)) : l.length = r.length + 4 := by
  rcases l with _ | ⟨a, _ | ⟨b, _ | ⟨c, _ | ⟨d, r0⟩⟩⟩⟩ <;> simp [readI32] at h
  obtain ⟨-, rfl⟩ := h
  simp

/-- The frame of `bigCmd`, optionally followed by short trailing bytes,
makes every decode attempt panic: the encoded total length wrapped to a
negative `i32`, whose `as usize` sign-extension demands an astronomical
body that `read_exact` cannot supply. -/
theorem from_buffer_bigCmd (t : List Nat) (ht : t.length ≤ 1000) :
    from_buffer (RemoteCommand.encode bigCmd ++ t) = none := by
  rw [encode_eq]
  simp only [bigCmd, bigBody]
  simp only [List.append_assoc, List.length_replicate]
  have hlo : (serHeader specHeader).length < 1000 := by decide
  unfold from_buffer
  rw [readI32_be4]
  dsimp only
  rw [readI32_be4]
  dsimp only
  have hmod : (4 + (serHeader specHeader).length + 2147483648) % U32
      = 4 + (serHeader specHeader).length + 2147483648 := by
    unfold U32
    omega
  have htot : i32ofBits (4 + (serHeader specHeader).length + 2147483648)
      = ((4 + (serHeader specHeader).length + 2147483648 : Nat) : Int) - (U32 : Int) := by
    unfold i32ofBits
    rw [hmod, if_neg (by unfold I31; omega)]
  have hhl : i32ofBits (serHeader specHeader).length
      = (((serHeader specHeader).length : Nat) : Int) :=
    i32ofBits_small _ (by unfold I31; omega)
  rw [htot, hhl]
  have hu1 : usizeOfI32 (((4 + (serHeader specHeader).length + 2147483648 : Nat) : Int)
        - (U32 : Int))
      = 4 + (serHeader specHeader).length + 2147483648 + (U64 - U32) := by
    unfold usizeOfI32 U64 U32
    omega
  have hu2 : usizeOfI32 (((serHeader specHeader).length : Nat) : Int)
      = (serHeader specHeader).length :=
    usizeOfI32_ofNat _ (by unfold U64; omega)
  rw [hu1, hu2]
  have hre : readExactN (serHeader specHeader).length
        (serHeader specHeader ++ (List.replicate 2147483648 0 ++ t))
      = some (serHeader specHeader, List.replicate 2147483648 0 ++ t) := by
    unfold readExactN
    rw [if_pos (by simp only [List.length_append, List.length_replicate]; omega),
      List.take_left, List.drop_left]
  rw [hre]
  dsimp only
  rw [parseHeaderBytes_ser specHeader (by decide)]
  dsimp only
  have hb1 : subWrapU (4 + (serHeader specHeader).length + 2147483648 + (U64 - U32)) 4
      = (serHeader specHeader).length + 2147483648 + (U64 - U32) :=
    (subWrapU_of_le _ _ (by omega) (by unfold U64 U32; omega)).trans (by unfold U64 U32; omega)
  have hb2 : subWrapU ((serHeader specHeader).length + 2147483648 + (U64 - U32))
        (serHeader specHeader).length
      = 2147483648 + (U64 - U32) :=
    (subWrapU_of_le _ _ (by omega) (by unfold U64 U32; omega)).trans (by unfold U64 U32; omega)
  rw [hb1, hb2]
  rw [if_pos (by unfold U64 U32; omega)]
  have hfail : readExactN (2147483648 + (U64 - U32)) (List.replicate 2147483648 0 ++ t)
      = none := by
    unfold readExactN
    rw [if_neg (by simp only [List.length_append, List.length_replicate]; unfold U64 U32; omega)]
  rw [hfail]

/-! ## Lemmas: the opaque counter -/

theorem i32ofBits_congr (a b : Nat) (h : a % U32 = b % U32) : i32ofBits a = i32ofBits b := by
  unfold i32ofBits
  rw [h]

theorem buildFrom_opaques (args : Nat → NewArgs) :
    ∀ n i ctr, (buildFrom args i ctr n).map (fun c => c.header.opaqueId)
      = (List.range n).map (fun k => i32ofBits (ctr + k)) := by
  intro n
  induction n with
  | zero => intro i ctr; simp [buildFrom]
  | succ n ih =>
      intro i ctr
      rw [buildFrom]
      dsimp only [RemoteCommand.new]
      simp only [List.map_cons]
      rw [ih (i + 1) ((ctr + 1) % U64)]
      rw [List.range_succ_eq_map]
      simp only [List.map_cons, List.map_map, Nat.add_zero]
      refine congrArg₂ _ rfl ?_
      refine List.map_congr_left ?_
      intro k _
      simp only [Function.comp_apply]
      exact i32ofBits_congr _ _ (by unfold U64 U32; omega)

theorem getD_map_range (g : Nat → Int) (n m : Nat) (hm : m < n) :
    ((List.range n).map g).getD m 0 = g m := by
  rw [List.getD_eq_getElem?_getD, List.getElem?_map, List.getElem?_range hm]
  rfl

/-! ## The claims -/

/-- C1 (counterexample): the round-trip does not hold for every
header/body combination.  `bigCmd` has a 2^31-byte body; its encoded
total length wraps to a negative `i32`, and decoding the encoded frame
panics (`none`) instead of reproducing the command. -/
theorem c1_counterexample :
    from_buffer (RemoteCommand.encode bigCmd) = none
    ∧ from_buffer (RemoteCommand.encode bigCmd) ≠ some bigCmd := by
  have h : from_buffer (RemoteCommand.encode bigCmd) = none := by
    have := from_buffer_bigCmd [] (by simp)
    simpa using this
  exact ⟨h, by rw [h]; simp⟩

/-- C1 (amended): for every command whose encoded frame fits the signed
32-bit length fields (total length `4 + header_len + body_len < 2^31`),
decoding the encoding reproduces the command exactly — for any code,
flag, unicode remark, any ext_fields (including empty) and any body
(including empty). -/
theorem c1_roundtrip (c : RemoteCommand) (hwf : WFHeaderB c.header = true)
    (hsz : 4 + (serHeader c.header).length + c.body.length < I31) :
    from_buffer (RemoteCommand.encode c) = some c := by
  have := from_buffer_encode c [] hwf hsz
  simpa using this

/-- C1 (witness): the spec §8 scenario command round-trips. -/
theorem c1_witness :
    WFHeaderB specCmd.header = true
    ∧ from_buffer (RemoteCommand.encode specCmd) = some specCmd :=
  ⟨by decide, c1_roundtrip specCmd (by decide) (by decide)⟩

/-- C2 (counterexample): decoding a malformed buffer does not produce a
`FramingError` — there is no error result at all.  `from_buffer` returns
`Self` and `unwrap`s internally, so a truncated buffer (here: empty) or
a buffer whose header bytes do not parse (here: declared 2 header bytes
"no") panics; the embedding models the panic as `none`. -/
theorem c2_counterexample :
    from_buffer [] = none
    ∧ from_buffer [0, 0, 0, 6, 0, 0, 0, 2, 110, 111] = none := by
  exact ⟨by decide, by decide⟩

/-- C2 (amended): every failure condition inside "shorter than its
declared lengths claim, or header bytes that do not parse" makes
decoding panic (`none`), rather than return an error value: a buffer
too short for the two length fields, a declared header length exceeding
the remaining bytes, header bytes that do not parse into a valid
`Header`, and a declared total length promising more body bytes than
remain after a valid header (the `read_exact` at protocol.rs line 71);
and a well-formed buffer — the encoding of a well-typed command whose
frame fits the 32-bit length fields — decodes successfully. -/
theorem c2_failure_modes (input : List Nat) :
    (input.length < 8 → from_buffer input = none)
    ∧ (∀ len hlen r1 r2, readI32 input = some (len, r1) → readI32 r1 = some (hlen, r2) →
        r2.length < usizeOfI32 hlen → from_buffer input = none)
    ∧ (∀ len hlen r1 r2 hbuf r3, readI32 input = some (len, r1) → readI32 r1 = some (hlen, r2) →
        readExactN (usizeOfI32 hlen) r2 = some (hbuf, r3) → parseHeaderBytes hbuf = none →
        from_buffer input = none)
    ∧ (∀ len hlen r1 r2 hbuf r3 header, readI32 input = some (len, r1) →
        readI32 r1 = some (hlen, r2) →
        readExactN (usizeOfI32 hlen) r2 = some (hbuf, r3) →
        parseHeaderBytes hbuf = some header →
        0 < subWrapU (subWrapU (usizeOfI32 len) 4) (usizeOfI32 hlen) →
        r3.length < subWrapU (subWrapU (usizeOfI32 len) 4) (usizeOfI32 hlen) →
        from_buffer input = none)
    ∧ (∀ c : RemoteCommand, input = RemoteCommand.encode c → WFHeaderB c.header = true →
        4 + (serHeader c.header).length + c.body.length < I31 →
        from_buffer input = some c) := by
  refine ⟨?_, ?_, ?_, ?_, ?_⟩
  · intro h8
    unfold from_buffer
    cases hr1 : readI32 input with
    | none => rfl
    | some p =>
        obtain ⟨len, r1⟩ := p
        have hlen4 := readI32_some_len input len r1 hr1
        dsimp only
        rw [readI32_none r1 (by omega)]
  · intro len hlen r1 r2 h1 h2 hshort
    unfold from_buffer
    rw [h1]
    dsimp only
    rw [h2]
    dsimp only
    have : readExactN (usizeOfI32 hlen) r2 = none := by
      unfold readExactN
      rw [if_neg (by omega)]
    rw [this]
  · intro len hlen r1 r2 hbuf r3 h1 h2 h3 h4
    unfold from_buffer
    rw [h1]
    dsimp only
    rw [h2]
    dsimp only
    rw [h3]
    dsimp only
    rw [h4]
  · intro len hlen r1 r2 hbuf r3 header h1 h2 h3 h4 hpos hlt
    unfold from_buffer
    rw [h1]
    dsimp only
    rw [h2]
    dsimp only
    rw [h3]
    dsimp only
    rw [h4]
    dsimp only
    rw [if_pos hpos]
    have : readExactN (subWrapU (subWrapU (usizeOfI32 len) 4) (usizeOfI32 hlen)) r3
        = none := by
      unfold readExactN
      rw [if_neg (by omega)]
    rw [this]
  · intro c hinput hwf hsz
    subst hinput
    have := from_buffer_encode c [] hwf hsz
    simpa using this

/-- C2 (witness): a three-byte buffer panics; a frame whose declared
total length promises more body bytes than remain (valid header,
truncated body) panics; and the well-formed scenario frame decodes
successfully. -/
theorem c2_witness :
    from_buffer [1, 2, 3] = none
    ∧ from_buffer truncBuf = none
    ∧ from_buffer (RemoteCommand.encode specCmd) = some specCmd := by
  refine ⟨(c2_failure_modes [1, 2, 3]).1 (by decide), ?_, ?_⟩
  · exact (c2_failure_modes truncBuf).2.2.2.1
      139 130
      (be4 (serHeader specHeader).length ++ serHeader specHeader ++ [65, 66])
      (serHeader specHeader ++ [65, 66])
      (serHeader specHeader) [65, 66] specHeader
      (by decide) (by decide) (by decide) (by decide) (by decide) (by decide)
  · exact (c2_failure_modes (RemoteCommand.encode specCmd)).2.2.2.2 specCmd rfl
      (by decide) (by decide)

/-- C3: commands constructed sequentially from the fresh counter (which
starts at 0) carry the opaque ids 0, 1, 2, … as 32-bit wrapped values;
before 32-bit wraparound no two share an opaque, and below 2^31 the ids
are strictly increasing. -/
theorem c3_opaque_sequence (args : Nat → NewArgs) (n : Nat) :
    (buildFrom args 0 initialCounter n).map (fun c => c.header.opaqueId)
      = (List.range n).map (fun k => i32ofBits k)
    ∧ (∀ i j, i < j → j < n → n ≤ 4294967296 →
        ((buildFrom args 0 initialCounter n).map (fun c => c.header.opaqueId)).getD i 0
          ≠ ((buildFrom args 0 initialCounter n).map (fun c => c.header.opaqueId)).getD j 0)
    ∧ (∀ i j, i < j → j < n → n ≤ 2147483648 →
        ((buildFrom args 0 initialCounter n).map (fun c => c.header.opaqueId)).getD i 0
          < ((buildFrom args 0 initialCounter n).map (fun c => c.header.opaqueId)).getD j 0) := by
  have hmap : (buildFrom args 0 initialCounter n).map (fun c => c.header.opaqueId)
      = (List.range n).map (fun k => i32ofBits k) := by
    have := buildFrom_opaques args n 0 initialCounter
    simpa [initialCounter] using this
  refine ⟨hmap, ?_, ?_⟩
  · intro i j hij hjn hn
    rw [hmap, getD_map_range _ _ _ (by omega), getD_map_range _ _ _ hjn]
    unfold i32ofBits I31 U32
    rw [Nat.mod_eq_of_lt (by omega), Nat.mod_eq_of_lt (by omega)]
    split_ifs <;> omega
  · intro i j hij hjn hn
    rw [hmap, getD_map_range _ _ _ (by omega), getD_map_range _ _ _ hjn]
    unfold i32ofBits I31 U32
    rw [Nat.mod_eq_of_lt (by omega), Nat.mod_eq_of_lt (by omega)]
    split_ifs <;> omega

/-- C3 (witness): three sequential constructions yield opaques 0, 1, 2,
pairwise distinct and increasing. -/
theorem c3_witness :
    (buildFrom w3args 0 initialCounter 3).map (fun c => c.header.opaqueId) = [0, 1, 2]
    ∧ ((buildFrom w3args 0 initialCounter 3).map (fun c => c.header.opaqueId)).getD 0 0
        ≠ ((buildFrom w3args 0 initialCounter 3).map (fun c => c.header.opaqueId)).getD 2 0
    ∧ ((buildFrom w3args 0 initialCounter 3).map (fun c => c.header.opaqueId)).getD 0 0
        < ((buildFrom w3args 0 initialCounter 3).map (fun c => c.header.opaqueId)).getD 2 0 :=
  ⟨((c3_opaque_sequence w3args 3).1).trans (by decide),
   (c3_opaque_sequence w3args 3).2.1 0 2 (by decide) (by decide) (by decide),
   (c3_opaque_sequence w3args 3).2.2 0 2 (by decide) (by decide) (by decide)⟩

/-- C4: `encode` produces exactly
`[be32 total][be32 header_len][header bytes][body]` with
`total = 4 + header_len + body_len` (the field does not count itself),
the header bytes being the serde_json serialization of all fields; the
leading four bytes read back as that total. -/
theorem c4_wire_layout (c : RemoteCommand) :
    RemoteCommand.encode c
      = be4 ((4 + (serHeader c.header).length + c.body.length) % U32)
        ++ be4 ((serHeader c.header).length % U32)
        ++ serHeader c.header ++ c.body
    ∧ readI32 (RemoteCommand.encode c)
      = some (i32ofBits (4 + (serHeader c.header).length + c.body.length),
          be4 ((serHeader c.header).length % U32) ++ (serHeader c.header ++ c.body)) := by
  refine ⟨encode_eq c, ?_⟩
  rw [encode_eq]
  simp only [List.append_assoc]
  exact readI32_be4 _ _

/-- C5: if the options' resolver fails to resolve, producer construction
fails with that error and yields no producer; a producer is only
returned when the initial resolve succeeded.  (`NameServer::new` and the
resolver implementations are modelled from the spec; the network is the
oracle `net`.) -/
theorem c5_fail_fast (net : String → ResolveResult) (group : String)
    (opts : ProducerOptions) :
    (∀ e, opts.resolver.resolve net = .err e →
      Producer.with_options net group opts = .error e)
    ∧ (∀ p, Producer.with_options net group opts = .ok p →
        ∃ addrs, opts.resolver.resolve net = .ok addrs)
    ∧ (∀ e, (ProducerOptions.new).resolver.resolve net = .err e →
        Producer.new net group = .error e) := by
  refine ⟨?_, ?_, ?_⟩
  · intro e he
    unfold Producer.with_options NameServer.new
    rw [he]
  · intro p hp
    unfold Producer.with_options NameServer.new at hp
    cases hres : opts.resolver.resolve net with
    | ok a => exact ⟨a, rfl⟩
    | err e =>
        rw [hres] at hp
        dsimp only at hp
        cases hp
  · intro e he
    unfold Producer.new Producer.with_options NameServer.new
    rw [he]

/-- C5 (witness): with a network on which every query fails, default
construction fails with `Unreachable`. -/
theorem c5_witness :
    Producer.with_options failNet "group" ProducerOptions.default
      = .error .unreachable :=
  (c5_fail_fast failNet "group" ProducerOptions.default).1 .unreachable rfl

/-- C6 (counterexample): setting the default topic queue count to zero
is not refused — the setter has no validation and simply stores the
value; there is no `ConfigurationError` anywhere in the source. -/
theorem c6_counterexample :
    (ProducerOptions.default.set_default_topic_queue_nums 0).default_topic_queue_nums = 0 :=
  rfl

/-- C6 (amended): `set_default_topic_queue_nums` stores any given count
(a `usize`, so only non-negative values exist), including zero,
unconditionally, and changes nothing else. -/
theorem c6_setter_stores (o : ProducerOptions) (n : Nat) :
    o.set_default_topic_queue_nums n = { o with default_topic_queue_nums := n } :=
  rfl

/-- C7: the default `ProducerOptions` carries a 3-second send timeout,
default topic queue count 4, create-topic key "TBW102", a fresh
round-robin queue selector, and an HTTP resolver against domain
"DEFAULT"; `ProducerOptions::new` returns exactly these defaults. -/
theorem c7_defaults :
    ProducerOptions.default.send_msg_timeout = Duration.from_secs 3
    ∧ ProducerOptions.default.default_topic_queue_nums = 4
    ∧ ProducerOptions.default.create_topic_key = "TBW102"
    ∧ ProducerOptions.default.selector = .roundRobin []
    ∧ ProducerOptions.default.resolver = .http "DEFAULT"
    ∧ ProducerOptions.new = ProducerOptions.default :=
  ⟨rfl, rfl, rfl, rfl, rfl, rfl⟩

/-- C8: each chained setter updates exactly the field (or resolver) it
names and returns the updated options value; `set_name_server` installs
a passthrough resolver over the given address list (with the default
HTTP resolver as fallback) and `set_name_server_domain` installs an HTTP
resolver targeting the given url. -/
theorem c8_setters_frame (o : ProducerOptions) (d : Duration) (n : Nat) (k : String)
    (r : Resolver) (addrs : List String) (url : String) :
    o.set_send_msg_timeout d = { o with send_msg_timeout := d }
    ∧ o.set_default_topic_queue_nums n = { o with default_topic_queue_nums := n }
    ∧ o.set_create_topic_key k = { o with create_topic_key := k }
    ∧ o.set_resolver r = { o with resolver := r }
    ∧ o.set_name_server addrs
        = { o with resolver := .passthroughR addrs (.http "DEFAULT") }
    ∧ o.set_name_server_domain url = { o with resolver := .httpWithDomain "DEFAULT" url } :=
  ⟨rfl, rfl, rfl, rfl, rfl, rfl⟩

/-- C9: whatever the arguments, `RemoteCommand::new` builds a header
with language "OTHER", version 431, the given code/flag/remark/fields
and the given body, assigns the counter's current value (wrapped to
`i32`) as the opaque, and advances the counter; the counter starts at 0,
so the first command of a process has opaque 0. -/
theorem c9_new_defaults (code flag : Int) (remark : RStr) (fields : List (RStr × RStr))
    (body : List Nat) (ctr : Nat) :
    (RemoteCommand.new code flag remark fields body ctr).1.header
      = ⟨code, lit "OTHER", 431, i32ofBits ctr, flag, remark, fields⟩
    ∧ (RemoteCommand.new code flag remark fields body ctr).1.body = body
    ∧ (RemoteCommand.new code flag remark fields body ctr).2 = (ctr + 1) % U64
    ∧ initialCounter = 0
    ∧ (RemoteCommand.new code flag remark fields body initialCounter).1.header.opaqueId = 0 := by
  refine ⟨rfl, rfl, rfl, rfl, ?_⟩
  dsimp only [RemoteCommand.new]
  decide

/-- C10 (counterexample): trailing bytes are not always ignored
successfully, because decoding itself can panic: appending one byte to
the over-long `bigCmd` frame still decodes to a panic (`none`), not to
`bigCmd`. -/
theorem c10_counterexample :
    from_buffer (RemoteCommand.encode bigCmd ++ [0]) = none
    ∧ from_buffer (RemoteCommand.encode bigCmd ++ [0]) ≠ some bigCmd := by
  have h := from_buffer_bigCmd [0] (by simp)
  exact ⟨h, by rw [h]; simp⟩

/-- C10 (amended): for every command whose encoded frame fits the 32-bit
length fields, decoding consumes only the declared bytes: any trailing
bytes are ignored and the command is still reproduced. -/
theorem c10_trailing (c : RemoteCommand) (t : List Nat) (hwf : WFHeaderB c.header = true)
    (hsz : 4 + (serHeader c.header).length + c.body.length < I31) :
    from_buffer (RemoteCommand.encode c ++ t) = some c :=
  from_buffer_encode c t hwf hsz

/-- C10 (witness): the scenario command with two junk trailing bytes. -/
theorem c10_witness :
    from_buffer (RemoteCommand.encode specCmd ++ [7, 9]) = some specCmd :=
  c10_trailing specCmd [7, 9] (by decide) (by decide)

end Rmq
